import Mathlib

/-!
# Verification of the digitron expression-tree micro-benchmark core

This development embeds the core of
`src/wasm/src/org.graalvm.wasm.benchcases/src/bench/c/micro/digitron.c`:
a tagged expression tree (`Expr`) evaluated against an `environment` of
26 input slots and 10 register slots, plus a fixed-capacity node pool
with an intrusive freelist (`allocate`, `deallocate`, `freelist_init`).

Modelling conventions:
* C `double` values are idealised as real numbers extended with a `nan`
  element (`Val`).  IEEE infinities are outside the idealisation; no
  verified property depends on them.
* C undefined behaviour along the evaluation paths (the `%` operator
  with a zero divisor or on `INT64_MIN % -1`, casting a NaN or
  out-of-range `double` to `int64_t`, and out-of-bounds indexing of the
  input/register arrays) is rendered as an explicit `EvalErr` result,
  the treatment the specification mandates for a reimplementation.
* The cast of the `int64_t` remainder back to `double` is idealised as
  exact (real-number) conversion.
* Pool slots are indices into the 10000-element `freelist_memory`
  array; the stored `next` pointer of each slot is a function from
  slots to `Option` slot, with `none` playing the role of `NULL`.
-/

namespace Digitron

/-- Idealised `double`: a real number or the not-a-number value. -/
inductive Val where
  | nan : Val
  | num : ℝ → Val

/-- Addition on idealised doubles; NaN propagates (matches `execute_add`). -/
noncomputable def Val.add : Val → Val → Val
  | Val.num x, Val.num y => Val.num (x + y)
  | _, _ => Val.nan

/-- Subtraction on idealised doubles; NaN propagates (matches `execute_sub`). -/
noncomputable def Val.sub : Val → Val → Val
  | Val.num x, Val.num y => Val.num (x - y)
  | _, _ => Val.nan

/-- Multiplication on idealised doubles; NaN propagates (matches `execute_mul`). -/
noncomputable def Val.mul : Val → Val → Val
  | Val.num x, Val.num y => Val.num (x * y)
  | _, _ => Val.nan

/-- Division on idealised doubles; NaN propagates (matches `execute_div`).
IEEE infinities for a zero divisor are outside the idealisation: real
division by zero yields `num 0` here.  No verified claim touches this case. -/
noncomputable def Val.div : Val → Val → Val
  | Val.num x, Val.num y => Val.num (x / y)
  | _, _ => Val.nan

open Classical in
/-- IEEE square root on idealised doubles: NaN on NaN, NaN on a negative
operand, otherwise the real square root (matches `sqrt` in `execute_sqrt`). -/
noncomputable def Val.sqrt : Val → Val
  | Val.nan => Val.nan
  | Val.num x => if x < 0 then Val.nan else Val.num (Real.sqrt x)

/-- Explicit failures of evaluation.  Each constructor marks a spot where the
C source has undefined behaviour, made into a reported error here. -/
inductive EvalErr where
  | nanToInt : EvalErr
  | intRange : EvalErr
  | remZero : EvalErr
  | remOverflow : EvalErr
  | regOutOfRange : EvalErr
  | identOutOfRange : EvalErr
deriving DecidableEq

/-- Truncation of a real toward zero, the rounding of a C float-to-integer cast. -/
noncomputable def realTrunc (x : ℝ) : ℤ :=
  if 0 ≤ x then ⌊x⌋ else ⌈x⌉

/-- Smallest `int64_t` value. -/
def i64Min : ℤ := -(2 ^ 63)

/-- Largest `int64_t` value. -/
def i64Max : ℤ := 2 ^ 63 - 1

/-- The C cast `(int64_t) v` of a double `v`: truncate toward zero; NaN or a
result outside the `int64_t` range is undefined behaviour in C, an explicit
error here. -/
noncomputable def castToI64 : Val → Except EvalErr ℤ
  | Val.nan => Except.error EvalErr.nanToInt
  | Val.num x =>
      if i64Min ≤ realTrunc x ∧ realTrunc x ≤ i64Max then Except.ok (realTrunc x)
      else Except.error EvalErr.intRange

/-- The environment: 26 input slots (one per lowercase letter) and 10
register slots, mirroring `struct environment`. -/
structure Env where
  inputs : Fin 26 → Val
  registers : Fin 10 → Val

/-- All slots zero, mirroring `environment_init`. -/
noncomputable def environment_init : Env :=
  Env.mk (fun _ => Val.num 0) (fun _ => Val.num 0)

/-- Read of input slot `name - 97` (97 is the code of the letter a),
mirroring `execute_env_read`; an identifier outside the 26 slots is an
out-of-bounds array read in C, an explicit error here. -/
def execute_env_read (env : Env) (name : ℤ) : Except EvalErr Val :=
  if h : 0 ≤ name - 97 ∧ name - 97 < 26 then
    Except.ok (env.inputs ⟨(name - 97).toNat, by omega⟩)
  else Except.error EvalErr.identOutOfRange

/-- Read of a register slot, mirroring `execute_env_reg_load`; an index
outside 0..9 is an out-of-bounds array read in C, an explicit error here. -/
def execute_env_reg_load (env : Env) (index : ℤ) : Except EvalErr Val :=
  if h : 0 ≤ index ∧ index < 10 then
    Except.ok (env.registers ⟨index.toNat, by omega⟩)
  else Except.error EvalErr.regOutOfRange

/-- Write of a register slot, returning the stored value, mirroring
`execute_env_reg_store`; an index outside 0..9 is an out-of-bounds array
write in C, an explicit error here. -/
def execute_env_reg_store (env : Env) (index : ℤ) (value : Val) :
    Except EvalErr (Val × Env) :=
  if h : 0 ≤ index ∧ index < 10 then
    Except.ok (value,
      Env.mk env.inputs (Function.update env.registers ⟨index.toNat, by omega⟩ value))
  else Except.error EvalErr.regOutOfRange

/-- Expression trees: the tagged union `expr` with its per-type payloads.
Register indices and identifier codes are embedded as integers, covering the
full range of the C `int8_t` and `char` fields. -/
inductive Expr where
  | const : Val → Expr
  | add : Expr → Expr → Expr
  | sub : Expr → Expr → Expr
  | mul : Expr → Expr → Expr
  | div : Expr → Expr → Expr
  | rem : Expr → Expr → Expr
  | sqrt : Expr → Expr
  | load : ℤ → Expr
  | store : ℤ → Expr → Expr
  | ident : ℤ → Expr

/-- The arithmetic tail of `execute_rem`: cast both operand values to
`int64_t`, take the truncating remainder, convert back to double.  A zero
divisor and `INT64_MIN % -1` are undefined behaviour in C, explicit errors
here. -/
noncomputable def remCombine (lv rv : Val) (env : Env) :
    Except EvalErr (Val × Env) :=
  match castToI64 lv, castToI64 rv with
  | Except.error err, _ => Except.error err
  | _, Except.error err => Except.error err
  | Except.ok li, Except.ok ri =>
      if ri = 0 then Except.error EvalErr.remZero
      else if li = i64Min ∧ ri = -1 then Except.error EvalErr.remOverflow
      else Except.ok (Val.num ((Int.tmod li ri : ℤ) : ℝ), env)

/-- The evaluator: the union of the `execute_*` functions dispatched through
the per-node `exec` pointer.  Every binary node evaluates its left child
first, then its right child in the left child's post-state; `store`
evaluates its argument and then writes the register. -/
noncomputable def execute : Expr → Env → Except EvalErr (Val × Env)
  | Expr.const v, env => Except.ok (v, env)
  | Expr.add l r, env =>
      match execute l env with
      | Except.error err => Except.error err
      | Except.ok (lv, env1) =>
          match execute r env1 with
          | Except.error err => Except.error err
          | Except.ok (rv, env2) => Except.ok (Val.add lv rv, env2)
  | Expr.sub l r, env =>
      match execute l env with
      | Except.error err => Except.error err
      | Except.ok (lv, env1) =>
          match execute r env1 with
          | Except.error err => Except.error err
          | Except.ok (rv, env2) => Except.ok (Val.sub lv rv, env2)
  | Expr.mul l r, env =>
      match execute l env with
      | Except.error err => Except.error err
      | Except.ok (lv, env1) =>
          match execute r env1 with
          | Except.error err => Except.error err
          | Except.ok (rv, env2) => Except.ok (Val.mul lv rv, env2)
  | Expr.div l r, env =>
      match execute l env with
      | Except.error err => Except.error err
      | Except.ok (lv, env1) =>
          match execute r env1 with
          | Except.error err => Except.error err
          | Except.ok (rv, env2) => Except.ok (Val.div lv rv, env2)
  | Expr.rem l r, env =>
      match execute l env with
      | Except.error err => Except.error err
      | Except.ok (lv, env1) =>
          match execute r env1 with
          | Except.error err => Except.error err
          | Except.ok (rv, env2) => remCombine lv rv env2
  | Expr.sqrt a, env =>
      match execute a env with
      | Except.error err => Except.error err
      | Except.ok (av, env1) => Except.ok (Val.sqrt av, env1)
  | Expr.load index, env =>
      match execute_env_reg_load env index with
      | Except.error err => Except.error err
      | Except.ok v => Except.ok (v, env)
  | Expr.store index a, env =>
      match execute a env with
      | Except.error err => Except.error err
      | Except.ok (v, env1) => execute_env_reg_store env1 index v
  | Expr.ident name, env =>
      match execute_env_read env name with
      | Except.error err => Except.error err
      | Except.ok v => Except.ok (v, env)

/-- Capacity of the node pool, `MAX_EXPR_NODES`. -/
abbrev MAX_EXPR_NODES : Nat := 10000

/-- A pool slot: an index into the `freelist_memory` array. -/
abbrev Slot : Type := Fin MAX_EXPR_NODES

/-- The mutable pool state: for each slot the `next` pointer currently stored
in it (meaningful while the slot is free), and the `freelist_head` pointer.
`none` plays the role of `NULL`. -/
structure Pool where
  next : Slot → Option Slot
  head : Option Slot

/-- Pop of the freelist head, mirroring `allocate`: `none` (the C `NULL`
return) when the freelist is empty, otherwise the head slot, with the head
advanced to that slot's stored `next` pointer. -/
def allocate (p : Pool) : Option Slot × Pool :=
  match p.head with
  | none => (none, p)
  | some c => (some c, Pool.mk p.next (p.next c))

/-- Push of a slot onto the freelist head, mirroring `deallocate`. -/
def deallocate (e : Slot) (p : Pool) : Pool :=
  Pool.mk (Function.update p.next e p.head) (some e)

/-- The initial pool, mirroring `freelist_init`: slot `i` links to slot
`i + 1`, the last slot links to `NULL`, and the head is slot 0. -/
def freelist_init : Pool :=
  Pool.mk
    (fun i =>
      if h : i.val = MAX_EXPR_NODES - 1 then none
      else some ⟨i.val + 1, by have h2 := i.isLt; omega⟩)
    (some ⟨0, by decide⟩)

/-- Run `k` successive allocations, collecting the returned references in
order and threading the pool state. -/
def allocN : Nat → Pool → List (Option Slot) × Pool
  | 0, p => ([], p)
  | k + 1, p =>
      match allocate p with
      | (r, p1) =>
          match allocN k p1 with
          | (rest, p2) => (r :: rest, p2)

/-- The pool state reached from `freelist_init` after `k` straight
allocations: the stored links are untouched and the head points at slot `k`
(or at `NULL` once the pool is exhausted). -/
def stateAfter (k : Nat) : Pool :=
  Pool.mk freelist_init.next
    (if h : k < MAX_EXPR_NODES then some ⟨k, h⟩ else none)

/-- Syntactic test: does the expression contain a `store` node whose register
index field is `j`?  In this branch-free language every node of a tree is
visited on each successful evaluation, so this is exactly "a store targeting
`j` is evaluated". -/
def storesReg : Expr → ℤ → Bool
  | Expr.const _, _ => false
  | Expr.add l r, j => storesReg l j || storesReg r j
  | Expr.sub l r, j => storesReg l j || storesReg r j
  | Expr.mul l r, j => storesReg l j || storesReg r j
  | Expr.div l r, j => storesReg l j || storesReg r j
  | Expr.rem l r, j => storesReg l j || storesReg r j
  | Expr.sqrt a, j => storesReg a j
  | Expr.load _, _ => false
  | Expr.store i a, j => (i == j) || storesReg a j
  | Expr.ident _, _ => false

/-! ## Theorems -/

/-- Helper: `castToI64` on an in-range integer value is that integer. -/
lemma castToI64_intCast (n : ℤ) (h1 : i64Min ≤ n) (h2 : n ≤ i64Max) :
    castToI64 (Val.num (n : ℝ)) = Except.ok n := by
  have ht : realTrunc ((n : ℤ) : ℝ) = n := by
    unfold realTrunc
    split
    · exact Int.floor_intCast n
    · exact Int.ceil_intCast n
  simp [castToI64, ht, h1, h2]

/-- Helper: the link stored in slot `k` by `freelist_init`, phrased with the
successor index guarded by the capacity bound. -/
lemma freelist_init_next (k : Nat) (h : k < MAX_EXPR_NODES) :
    freelist_init.next ⟨k, h⟩ =
      if h2 : k + 1 < MAX_EXPR_NODES then some ⟨k + 1, h2⟩ else none := by
  simp only [freelist_init]
  split <;> split <;> first | rfl | omega

/-- Helper: the initial pool is the zero-allocation state. -/
lemma freelist_init_eq_stateAfter : freelist_init = stateAfter 0 := by
  simp [stateAfter, freelist_init]

/-- Helper: one allocation step from the `k`-allocation state. -/
lemma allocate_stateAfter (k : Nat) (h : k < MAX_EXPR_NODES) :
    allocate (stateAfter k) = (some ⟨k, h⟩, stateAfter (k + 1)) := by
  simp only [allocate, stateAfter, dif_pos h]
  simp only [Prod.mk.injEq, Pool.mk.injEq, true_and]
  exact freelist_init_next k h

/-- Helper: a run of `j` allocations from the `k`-allocation state returns
slots `k, k+1, ..., k+j-1` and lands in the `(k+j)`-allocation state. -/
lemma allocN_stateAfter (j : Nat) : ∀ k : Nat, k + j ≤ MAX_EXPR_NODES →
    (allocN j (stateAfter k)).1.map (Option.map Fin.val)
        = (List.range j).map (fun i => some (k + i))
    ∧ (allocN j (stateAfter k)).2 = stateAfter (k + j) := by
  induction j with
  | zero => intro k hk; simp [allocN]
  | succ j ih =>
      intro k hk
      have hkM : k < MAX_EXPR_NODES := by omega
      have hstep := allocate_stateAfter k hkM
      have hrec := ih (k + 1) (by omega)
      simp only [allocN, hstep]
      constructor
      · simp only [List.map_cons, Option.map_some, hrec.1,
          List.range_succ_eq_map, List.map_map]
        refine congrArg₂ List.cons (by simp) ?_
        exact List.map_congr_left (fun i _ => by simp [Function.comp]; omega)
      · rw [hrec.2]
        congr 1
        omega

/-- C10: after `freelist_init` the head is slot 0 and each slot links to its
successor (the last to nothing), so `k ≤ 10000` straight allocations return
slots `0, 1, ..., k-1` in ascending index order. -/
theorem freelist_ascending (k : Nat) (hk : k ≤ MAX_EXPR_NODES) :
    freelist_init.head.map Fin.val = some 0
    ∧ (∀ i : Slot, (freelist_init.next i).map Fin.val =
        if i.val = MAX_EXPR_NODES - 1 then none else some (i.val + 1))
    ∧ (allocN k freelist_init).1.map (Option.map Fin.val)
        = (List.range k).map (fun i => some i) := by
  refine ⟨by simp [freelist_init], ?_, ?_⟩
  · intro i
    simp only [freelist_init]
    split <;> simp
  · have h := (allocN_stateAfter k 0 (by omega)).1
    rw [freelist_init_eq_stateAfter]
    simpa using h

/-- Witness for `freelist_ascending` at `k = 3`. -/
theorem freelist_ascending_witness :
    3 ≤ MAX_EXPR_NODES
    ∧ (allocN 3 freelist_init).1.map (Option.map Fin.val)
        = (List.range 3).map (fun i => some i) :=
  ⟨by decide, (freelist_ascending 3 (by decide)).2.2⟩

/-- C5: from a freshly initialized freelist, the first 10000 allocations all
return a slot, and the 10001st allocation returns `NULL` (the pool is
exhausted and never grows). -/
theorem pool_exhaustion :
    (allocN MAX_EXPR_NODES freelist_init).1.all Option.isSome = true
    ∧ (allocate (allocN MAX_EXPR_NODES freelist_init).2).1 = none := by
  have h := allocN_stateAfter MAX_EXPR_NODES 0 (by omega)
  rw [freelist_init_eq_stateAfter]
  constructor
  · rw [List.all_eq_true]
    intro o ho
    have hmem : Option.map Fin.val o
        ∈ ((allocN MAX_EXPR_NODES (stateAfter 0)).1.map (Option.map Fin.val)) :=
      List.mem_map_of_mem _ ho
    rw [h.1] at hmem
    obtain ⟨i, _, hi⟩ := List.mem_map.mp hmem
    cases o with
    | none => simp at hi
    | some s => rfl
  · rw [h.2]
    simp [allocate, stateAfter]

/-- C6: deallocating a node and immediately allocating again returns exactly
that slot; the head pointer is restored, and every other slot's stored link
is untouched (LIFO push then pop). -/
theorem dealloc_alloc_lifo (p : Pool) (e : Slot) :
    (allocate (deallocate e p)).1 = some e
    ∧ ((allocate (deallocate e p)).2).head = p.head
    ∧ ∀ i : Slot, i ≠ e → ((allocate (deallocate e p)).2).next i = p.next i := by
  refine ⟨rfl, ?_, ?_⟩
  · simp [allocate, deallocate]
  · intro i hi
    simp [allocate, deallocate, Function.update_noteq hi]

/-- C3: for a register index in 0..9, `Store(r, a)` evaluates `a`, writes the
result into register `r`, and returns that value; `Load(r)` immediately
afterwards in the same environment returns it. -/
theorem store_load_semantics (r : ℤ) (a : Expr) (env env1 : Env) (v : Val)
    (hr0 : 0 ≤ r) (hr : r < 10) (ha : execute a env = Except.ok (v, env1)) :
    execute (Expr.store r a) env
        = Except.ok (v, Env.mk env1.inputs
            (Function.update env1.registers ⟨r.toNat, by omega⟩ v))
    ∧ execute (Expr.load r)
          (Env.mk env1.inputs (Function.update env1.registers ⟨r.toNat, by omega⟩ v))
        = Except.ok (v, Env.mk env1.inputs
            (Function.update env1.registers ⟨r.toNat, by omega⟩ v))
    ∧ (Env.mk env1.inputs
          (Function.update env1.registers ⟨r.toNat, by omega⟩ v)).registers
            ⟨r.toNat, by omega⟩ = v := by
  refine ⟨?_, ?_, ?_⟩
  · simp only [execute, ha, execute_env_reg_store]
    rw [dif_pos ⟨hr0, hr⟩]
  · simp only [execute, execute_env_reg_load]
    rw [dif_pos ⟨hr0, hr⟩]
    simp [Function.update_same]
  · simp [Function.update_same]

/-- Witness for `store_load_semantics` at register 0 and the constant 5. -/
theorem store_load_semantics_witness :
    (0 : ℤ) ≤ 0 ∧ (0 : ℤ) < 10
    ∧ execute (Expr.store 0 (Expr.const (Val.num 5))) environment_init
        = Except.ok (Val.num 5, Env.mk environment_init.inputs
            (Function.update environment_init.registers ⟨(0 : ℤ).toNat, by decide⟩
              (Val.num 5)))
    ∧ execute (Expr.load 0)
          (Env.mk environment_init.inputs
            (Function.update environment_init.registers ⟨(0 : ℤ).toNat, by decide⟩
              (Val.num 5)))
        = Except.ok (Val.num 5, Env.mk environment_init.inputs
            (Function.update environment_init.registers ⟨(0 : ℤ).toNat, by decide⟩
              (Val.num 5))) := by
  have ha : execute (Expr.const (Val.num 5)) environment_init
      = Except.ok (Val.num 5, environment_init) := by simp [execute]
  have h := store_load_semantics 0 (Expr.const (Val.num 5)) environment_init
    environment_init (Val.num 5) (by decide) (by decide) ha
  exact ⟨by decide, by decide, h.1, h.2.1⟩

/-- C9: an identifier between the codes of a and z reads the corresponding
input slot; any other identifier code is a reported failure rather than a
silent out-of-bounds read. -/
theorem ident_semantics :
    (∀ (j : Fin 26) (env : Env),
        execute (Expr.ident (97 + (j.val : ℤ))) env = Except.ok (env.inputs j, env))
    ∧ (∀ (c : ℤ) (env : Env), c < 97 ∨ 122 < c →
        execute (Expr.ident c) env = Except.error EvalErr.identOutOfRange) := by
  constructor
  · intro j env
    have hj := j.isLt
    simp only [execute, execute_env_read]
    rw [dif_pos (by omega : (0 : ℤ) ≤ 97 + (j.val : ℤ) - 97 ∧ 97 + (j.val : ℤ) - 97 < 26)]
    have hfin : (⟨((97 : ℤ) + (j.val : ℤ) - 97).toNat, by omega⟩ : Fin 26) = j := by
      apply Fin.ext
      simp
    rw [hfin]
  · intro c env h
    simp only [execute, execute_env_read]
    rw [dif_neg (by omega)]

/-- Witness for `ident_semantics` at the letter a (code 97) and at code 123. -/
theorem ident_semantics_witness :
    execute (Expr.ident (97 + ((0 : Fin 26).val : ℤ))) environment_init
        = Except.ok (environment_init.inputs 0, environment_init)
    ∧ ((123 : ℤ) < 97 ∨ 122 < (123 : ℤ))
    ∧ execute (Expr.ident 123) environment_init
        = Except.error EvalErr.identOutOfRange :=
  ⟨ident_semantics.1 0 environment_init, Or.inr (by norm_num),
   ident_semantics.2 123 environment_init (Or.inr (by norm_num))⟩

/-- C8: `Sqrt(a)` evaluates `a` and applies the square root; a negative
operand silently yields NaN (never an error); `Sqrt(-1)` is NaN and
`Sqrt(16) = 4`. -/
theorem sqrt_semantics :
    (∀ (a : Expr) (env env1 : Env) (x : ℝ),
        execute a env = Except.ok (Val.num x, env1) →
        execute (Expr.sqrt a) env = Except.ok (Val.sqrt (Val.num x), env1))
    ∧ (∀ x : ℝ, x < 0 → Val.sqrt (Val.num x) = Val.nan)
    ∧ (∀ x : ℝ, 0 ≤ x → Val.sqrt (Val.num x) = Val.num (Real.sqrt x))
    ∧ (∀ env : Env, execute (Expr.sqrt (Expr.const (Val.num (-1)))) env
        = Except.ok (Val.nan, env))
    ∧ (∀ env : Env, execute (Expr.sqrt (Expr.const (Val.num 16))) env
        = Except.ok (Val.num 4, env)) := by
  have hneg : ∀ x : ℝ, x < 0 → Val.sqrt (Val.num x) = Val.nan := by
    intro x hx
    simp only [Val.sqrt]
    rw [if_pos hx]
  have hpos : ∀ x : ℝ, 0 ≤ x → Val.sqrt (Val.num x) = Val.num (Real.sqrt x) := by
    intro x hx
    simp only [Val.sqrt]
    rw [if_neg (not_lt.mpr hx)]
  have hgen : ∀ (a : Expr) (env env1 : Env) (x : ℝ),
      execute a env = Except.ok (Val.num x, env1) →
      execute (Expr.sqrt a) env = Except.ok (Val.sqrt (Val.num x), env1) := by
    intro a env env1 x h
    simp only [execute, h]
  refine ⟨hgen, hneg, hpos, ?_, ?_⟩
  · intro env
    have h := hgen (Expr.const (Val.num (-1))) env env (-1) (by simp [execute])
    rw [h, hneg (-1) (by norm_num)]
  · intro env
    have h := hgen (Expr.const (Val.num 16)) env env 16 (by simp [execute])
    rw [h, hpos 16 (by norm_num)]
    rw [show (16 : ℝ) = 4 ^ 2 by norm_num, Real.sqrt_sq (by norm_num : (0 : ℝ) ≤ 4)]

/-- Witness for `sqrt_semantics` at the constants 9 and -2. -/
theorem sqrt_semantics_witness :
    execute (Expr.sqrt (Expr.const (Val.num 9))) environment_init
        = Except.ok (Val.sqrt (Val.num 9), environment_init)
    ∧ ((-2 : ℝ) < 0 ∧ Val.sqrt (Val.num (-2)) = Val.nan) :=
  ⟨sqrt_semantics.1 (Expr.const (Val.num 9)) environment_init environment_init 9
      (by simp [execute]),
   by norm_num, sqrt_semantics.2.1 (-2) (by norm_num)⟩

/-- C1: `Rem(l, r)` evaluates `l`, then `r`, casts both to `int64_t` and takes
the truncating remainder, converted back to floating point; in particular
`Rem(7, 2) = 1` and `Rem(-7, 2) = -1`, the sign following the dividend. -/
theorem rem_semantics :
    (∀ (l r : Expr) (env env1 env2 : Env) (lv rv : Val) (li ri : ℤ),
        execute l env = Except.ok (lv, env1) →
        execute r env1 = Except.ok (rv, env2) →
        castToI64 lv = Except.ok li →
        castToI64 rv = Except.ok ri →
        ri ≠ 0 →
        ¬(li = i64Min ∧ ri = -1) →
        execute (Expr.rem l r) env
          = Except.ok (Val.num ((Int.tmod li ri : ℤ) : ℝ), env2))
    ∧ (∀ env : Env,
        execute (Expr.rem (Expr.const (Val.num 7)) (Expr.const (Val.num 2))) env
          = Except.ok (Val.num 1, env))
    ∧ (∀ env : Env,
        execute (Expr.rem (Expr.const (Val.num (-7))) (Expr.const (Val.num 2))) env
          = Except.ok (Val.num (-1), env)) := by
  have hc2 : castToI64 (Val.num 2) = Except.ok 2 := by
    have h := castToI64_intCast 2 (by norm_num [i64Min]) (by norm_num [i64Max])
    simpa using h
  have hc7 : castToI64 (Val.num 7) = Except.ok 7 := by
    have h := castToI64_intCast 7 (by norm_num [i64Min]) (by norm_num [i64Max])
    simpa using h
  have hcm7 : castToI64 (Val.num (-7)) = Except.ok (-7) := by
    have h := castToI64_intCast (-7) (by norm_num [i64Min]) (by norm_num [i64Max])
    simpa using h
  have hgen : ∀ (l r : Expr) (env env1 env2 : Env) (lv rv : Val) (li ri : ℤ),
      execute l env = Except.ok (lv, env1) →
      execute r env1 = Except.ok (rv, env2) →
      castToI64 lv = Except.ok li →
      castToI64 rv = Except.ok ri →
      ri ≠ 0 →
      ¬(li = i64Min ∧ ri = -1) →
      execute (Expr.rem l r) env
        = Except.ok (Val.num ((Int.tmod li ri : ℤ) : ℝ), env2) := by
    intro l r env env1 env2 lv rv li ri hl hr hli hri hri0 hov
    simp only [execute, hl, hr, remCombine, hli, hri]
    rw [if_neg hri0, if_neg hov]
  refine ⟨hgen, ?_, ?_⟩
  · intro env
    have h := hgen (Expr.const (Val.num 7)) (Expr.const (Val.num 2)) env env env
      (Val.num 7) (Val.num 2) 7 2 (by simp [execute]) (by simp [execute]) hc7 hc2
      (by norm_num) (by norm_num [i64Min])
    rw [h]
    norm_num [Int.tmod]
  · intro env
    have h := hgen (Expr.const (Val.num (-7))) (Expr.const (Val.num 2)) env env env
      (Val.num (-7)) (Val.num 2) (-7) 2 (by simp [execute]) (by simp [execute]) hcm7 hc2
      (by norm_num) (by norm_num [i64Min])
    rw [h]
    norm_num [show Int.tmod (-7) 2 = -1 by decide]

/-- Witness for `rem_semantics` on `Rem(9, 4)`. -/
theorem rem_semantics_witness :
    execute (Expr.rem (Expr.const (Val.num 9)) (Expr.const (Val.num 4)))
        environment_init
      = Except.ok (Val.num ((Int.tmod 9 4 : ℤ) : ℝ), environment_init) :=
  rem_semantics.1 (Expr.const (Val.num 9)) (Expr.const (Val.num 4))
    environment_init environment_init environment_init (Val.num 9) (Val.num 4) 9 4
    (by simp [execute]) (by simp [execute])
    (by simpa using castToI64_intCast 9 (by norm_num [i64Min]) (by norm_num [i64Max]))
    (by simpa using castToI64_intCast 4 (by norm_num [i64Min]) (by norm_num [i64Max]))
    (by norm_num) (by norm_num [i64Min])

/-- C4: when the divisor of `Rem` casts to the integer zero, evaluation is an
explicit reported failure (a distinguished error value), never a numeric
result. -/
theorem rem_zero_divisor (l r : Expr) (env env1 env2 : Env) (lv rv : Val)
    (hl : execute l env = Except.ok (lv, env1))
    (hr : execute r env1 = Except.ok (rv, env2))
    (h0 : castToI64 rv = Except.ok 0) :
    (∃ err, execute (Expr.rem l r) env = Except.error err)
    ∧ (∀ li : ℤ, castToI64 lv = Except.ok li →
        execute (Expr.rem l r) env = Except.error EvalErr.remZero) := by
  simp only [execute, hl, hr, remCombine, h0]
  constructor
  · cases hc : castToI64 lv with
    | error e => exact ⟨e, by simp [hc]⟩
    | ok li => exact ⟨EvalErr.remZero, by simp [hc]⟩
  · intro li hli
    simp [hli]

/-- Witness for `rem_zero_divisor` on `Rem(7, 0)`. -/
theorem rem_zero_divisor_witness :
    execute (Expr.rem (Expr.const (Val.num 7)) (Expr.const (Val.num 0)))
        environment_init
      = Except.error EvalErr.remZero := by
  have h7 : execute (Expr.const (Val.num 7)) environment_init
      = Except.ok (Val.num 7, environment_init) := by simp [execute]
  have h0v : execute (Expr.const (Val.num 0)) environment_init
      = Except.ok (Val.num 0, environment_init) := by simp [execute]
  have hc0 : castToI64 (Val.num 0) = Except.ok 0 := by
    have h := castToI64_intCast 0 (by norm_num [i64Min]) (by norm_num [i64Max])
    simpa using h
  have hc7 : castToI64 (Val.num 7) = Except.ok 7 := by
    have h := castToI64_intCast 7 (by norm_num [i64Min]) (by norm_num [i64Max])
    simpa using h
  exact (rem_zero_divisor (Expr.const (Val.num 7)) (Expr.const (Val.num 0))
    environment_init environment_init environment_init (Val.num 7) (Val.num 0)
    h7 h0v hc0).2 7 hc7

/-- C2: every binary node evaluates its left subtree to completion first
(including register effects, visible through the threaded environment), and
only then its right subtree in the left subtree's post-state; an error in the
left subtree short-circuits.  Re-evaluation is literal re-execution: the
result is a pure function of the subtree and incoming environment, with no
cache. -/
theorem binary_eval_order (l r : Expr) (env : Env) :
    (∀ (lv : Val) (env1 : Env), execute l env = Except.ok (lv, env1) →
        execute (Expr.add l r) env
            = (execute r env1).map (fun p => (Val.add lv p.1, p.2))
        ∧ execute (Expr.sub l r) env
            = (execute r env1).map (fun p => (Val.sub lv p.1, p.2))
        ∧ execute (Expr.mul l r) env
            = (execute r env1).map (fun p => (Val.mul lv p.1, p.2))
        ∧ execute (Expr.div l r) env
            = (execute r env1).map (fun p => (Val.div lv p.1, p.2))
        ∧ execute (Expr.rem l r) env
            = (execute r env1).bind (fun p => remCombine lv p.1 p.2))
    ∧ (∀ err : EvalErr, execute l env = Except.error err →
        execute (Expr.add l r) env = Except.error err
        ∧ execute (Expr.sub l r) env = Except.error err
        ∧ execute (Expr.mul l r) env = Except.error err
        ∧ execute (Expr.div l r) env = Except.error err
        ∧ execute (Expr.rem l r) env = Except.error err) := by
  constructor
  · intro lv env1 hl
    refine ⟨?_, ?_, ?_, ?_, ?_⟩ <;>
      · simp only [execute, hl]
        cases hr : execute r env1 with
        | error e => simp [Except.map, Except.bind]
        | ok p => cases p; simp [Except.map, Except.bind]
  · intro err hl
    refine ⟨?_, ?_, ?_, ?_, ?_⟩ <;> simp only [execute, hl]

/-- Witness for `binary_eval_order`: the right operand of an addition sees
the register written by a store in the left operand. -/
theorem binary_eval_order_witness :
    execute (Expr.add (Expr.store 0 (Expr.const (Val.num 1))) (Expr.load 0))
        environment_init
      = Except.ok (Val.num 2, Env.mk environment_init.inputs
          (Function.update environment_init.registers ⟨(0 : ℤ).toNat, by decide⟩
            (Val.num 1))) := by
  have hl : execute (Expr.store 0 (Expr.const (Val.num 1))) environment_init
      = Except.ok (Val.num 1, Env.mk environment_init.inputs
          (Function.update environment_init.registers ⟨(0 : ℤ).toNat, by decide⟩
            (Val.num 1))) := by
    simp only [execute, execute_env_reg_store]
    rw [dif_pos (by decide : (0 : ℤ) ≤ 0 ∧ (0 : ℤ) < 10)]
  have h := (binary_eval_order (Expr.store 0 (Expr.const (Val.num 1)))
    (Expr.load 0) environment_init).1 (Val.num 1) _ hl
  rw [h.1]
  simp only [execute, execute_env_reg_load]
  rw [dif_pos (by decide : (0 : ℤ) ≤ 0 ∧ (0 : ℤ) < 10)]
  simp [Except.map, Function.update_same, Val.add]
  norm_num

/-- Helper: a successful `remCombine` returns its incoming environment. -/
lemma remCombine_env (lv rv : Val) (env0 : Env) (v : Val) (envF : Env)
    (h : remCombine lv rv env0 = Except.ok (v, envF)) : envF = env0 := by
  unfold remCombine at h
  cases hcl : castToI64 lv with
  | error e => rw [hcl] at h; simp at h
  | ok li =>
      rw [hcl] at h
      cases hcr : castToI64 rv with
      | error e => rw [hcr] at h; simp at h
      | ok ri =>
          rw [hcr] at h
          simp only at h
          split at h
          · simp at h
          · split at h
            · simp at h
            · simp only [Except.ok.injEq, Prod.mk.injEq] at h
              exact h.2.symm

/-- Helper: a successful register store returns the stored value and changes
nothing but the targeted register slot. -/
lemma execute_env_reg_store_spec (env1 : Env) (i : ℤ) (w v : Val) (envF : Env)
    (h : execute_env_reg_store env1 i w = Except.ok (v, envF)) :
    v = w ∧ envF.inputs = env1.inputs
    ∧ ∀ j : Fin 10, i ≠ (j.val : ℤ) → envF.registers j = env1.registers j := by
  unfold execute_env_reg_store at h
  split at h
  case isTrue h0 =>
    simp only [Except.ok.injEq, Prod.mk.injEq] at h
    obtain ⟨hv, henv⟩ := h
    subst henv
    refine ⟨hv.symm, rfl, ?_⟩
    intro j hj
    have hne : j ≠ (⟨i.toNat, by omega⟩ : Fin 10) := by
      intro hEq
      have hv2 : (j : Fin 10).val = i.toNat := by rw [hEq]
      omega
    exact Function.update_noteq hne w env1.registers
  case isFalse => simp at h

/-- C7: successful evaluation never changes any of the 26 input slots, and a
register slot is unchanged unless the tree contains a store node targeting
it (in this branch-free language every contained store is executed). -/
theorem execute_frame (e : Expr) : ∀ (env : Env) (v : Val) (envF : Env),
    execute e env = Except.ok (v, envF) →
    envF.inputs = env.inputs
    ∧ ∀ j : Fin 10, storesReg e (j.val : ℤ) = false →
        envF.registers j = env.registers j := by
  induction e with
  | const c =>
      intro env v envF h
      simp only [execute, Except.ok.injEq, Prod.mk.injEq] at h
      obtain ⟨-, henv⟩ := h
      subst henv
      exact ⟨rfl, fun j _ => rfl⟩
  | add l r ihl ihr | sub l r ihl ihr | mul l r ihl ihr | div l r ihl ihr =>
      intro env v envF h
      simp only [execute] at h
      split at h
      · simp at h
      · rename_i lv env1 hl
        split at h
        · simp at h
        · rename_i rv env2 hr
          simp only [Except.ok.injEq, Prod.mk.injEq] at h
          obtain ⟨-, henv⟩ := h
          subst henv
          obtain ⟨hil, hrl⟩ := ihl env lv env1 hl
          obtain ⟨hir, hrr⟩ := ihr env1 rv _ hr
          refine ⟨hir.trans hil, ?_⟩
          intro j hj
          simp only [storesReg, Bool.or_eq_false_iff] at hj
          exact (hrr j hj.2).trans (hrl j hj.1)
  | rem l r ihl ihr =>
      intro env v envF h
      simp only [execute] at h
      split at h
      · simp at h
      · rename_i lv env1 hl
        split at h
        · simp at h
        · rename_i rv env2 hr
          have henv := remCombine_env lv rv env2 v envF h
          subst henv
          obtain ⟨hil, hrl⟩ := ihl env lv env1 hl
          obtain ⟨hir, hrr⟩ := ihr env1 rv _ hr
          refine ⟨hir.trans hil, ?_⟩
          intro j hj
          simp only [storesReg, Bool.or_eq_false_iff] at hj
          exact (hrr j hj.2).trans (hrl j hj.1)
  | sqrt a iha =>
      intro env v envF h
      simp only [execute] at h
      split at h
      · simp at h
      · rename_i av env1 ha
        simp only [Except.ok.injEq, Prod.mk.injEq] at h
        obtain ⟨-, henv⟩ := h
        subst henv
        obtain ⟨hia, hra⟩ := iha env av _ ha
        exact ⟨hia, fun j hj => hra j (by simpa [storesReg] using hj)⟩
  | load i =>
      intro env v envF h
      simp only [execute] at h
      split at h
      · simp at h
      · rename_i w hl
        simp only [Except.ok.injEq, Prod.mk.injEq] at h
        obtain ⟨-, henv⟩ := h
        subst henv
        exact ⟨rfl, fun j _ => rfl⟩
  | store i a iha =>
      intro env v envF h
      simp only [execute] at h
      split at h
      · simp at h
      · rename_i w env1 ha
        obtain ⟨-, hinp, hreg⟩ := execute_env_reg_store_spec env1 i w v envF h
        obtain ⟨hia, hra⟩ := iha env w env1 ha
        refine ⟨hinp.trans hia, ?_⟩
        intro j hj
        simp only [storesReg, Bool.or_eq_false_iff, beq_eq_false_iff_ne] at hj
        exact (hreg j hj.1).trans (hra j hj.2)
  | ident c =>
      intro env v envF h
      simp only [execute] at h
      split at h
      · simp at h
      · rename_i w hc
        simp only [Except.ok.injEq, Prod.mk.injEq] at h
        obtain ⟨-, henv⟩ := h
        subst henv
        exact ⟨rfl, fun j _ => rfl⟩

/-- Witness for `execute_frame` on a store to register 3. -/
theorem execute_frame_witness :
    execute (Expr.store 3 (Expr.const (Val.num 5))) environment_init
        = Except.ok (Val.num 5, Env.mk environment_init.inputs
            (Function.update environment_init.registers ⟨(3 : ℤ).toNat, by decide⟩
              (Val.num 5)))
    ∧ (Env.mk environment_init.inputs
          (Function.update environment_init.registers ⟨(3 : ℤ).toNat, by decide⟩
            (Val.num 5))).inputs = environment_init.inputs := by
  have h : execute (Expr.store 3 (Expr.const (Val.num 5))) environment_init
      = Except.ok (Val.num 5, Env.mk environment_init.inputs
          (Function.update environment_init.registers ⟨(3 : ℤ).toNat, by decide⟩
            (Val.num 5))) := by
    simp only [execute, execute_env_reg_store]
    rw [dif_pos (by decide : (0 : ℤ) ≤ 3 ∧ (3 : ℤ) < 10)]
  exact ⟨h, (execute_frame (Expr.store 3 (Expr.const (Val.num 5)))
    environment_init (Val.num 5) _ h).1⟩

/-- Witness for `dealloc_alloc_lifo` on the initial pool and slot 5. -/
theorem dealloc_alloc_lifo_witness :
    (allocate (deallocate (5 : Slot) freelist_init)).1 = some (5 : Slot)
    ∧ ((allocate (deallocate (5 : Slot) freelist_init)).2).head = freelist_init.head
    ∧ ((0 : Slot) ≠ (5 : Slot)
        ∧ ((allocate (deallocate (5 : Slot) freelist_init)).2).next (0 : Slot)
            = freelist_init.next (0 : Slot)) :=
  ⟨(dealloc_alloc_lifo freelist_init 5).1,
   (dealloc_alloc_lifo freelist_init 5).2.1,
   by decide,
   (dealloc_alloc_lifo freelist_init 5).2.2 0 (by decide)⟩

end Digitron
